import Mathlib

/-
A verification development for the power-stream analysis engine of
`bot_power.py`.

Modelling conventions:
* Power samples are embedded as exact rationals (`ℚ`); numpy float arithmetic
  is modelled as exact field arithmetic.
* Timestamps (`datetime` values) are embedded as naturals, order-isomorphic to
  the datetimes that occur, with `datetime.min` mapped to `0` (`datetimeMin`).
  Only order and maxima of timestamps matter to the code.
* The store directory `DATA_DIR` is a list of `StoreFile`s in listing order.
  Files are the `"{id}.json"` files the program itself writes, so every file
  name ends in `.json` and parses to an integer id; `content = none` models a
  file whose bytes are not valid JSON.
* Python exceptions that can escape a function are made explicit with
  `Except PyErr`; a Python function that returns `None` on every path has
  result component `Except.ok ()`.
-/

namespace BotPower

/-- Python exceptions that the analysis read path can raise. -/
inductive PyErr where
  | typeError
  | jsonDecodeError
  deriving DecidableEq

/-- The JSON `power` field of a stored record: the key may be absent, hold
JSON `null`, or hold a list of number-or-null samples.  Python's `dict.get`
returns `None` both for an absent key and for a stored `null`, but
`dict.get("power", [])` distinguishes them, so the embedding keeps all three
cases. -/
inductive PowerField where
  | absent
  | null
  | val (samples : List (Option ℚ))
  deriving DecidableEq

/-- One parsed activity-record JSON object.  `start_date = some t` models a
present, parseable timestamp; `none` models a missing or unparseable
`start_date` (both make `parser.isoparse` raise `ValueError`). -/
structure RawRecord where
  name : Option String
  start_date : Option ℕ
  power : PowerField
  time : Option (List ℕ)
  deriving DecidableEq

/-- One file of the store directory: numeric file name `fid` (from
`"{fid}.json"`) and its parsed content, `none` when `json.load` would raise
`JSONDecodeError`. -/
structure StoreFile where
  fid : ℕ
  content : Option RawRecord
  deriving DecidableEq

/-- `clean_power_data` (bot_power.py line 263): replace `None` (null) samples
by `0`, keep everything else. -/
def clean_power_data (power_list : List (Option ℚ)) : List ℚ :=
  power_list.map (fun p => match p with | some v => v | none => 0)

/-- `np.max` over a list; `none` for the empty list (where numpy raises). -/
def listMax : List ℚ → Option ℚ
  | [] => none
  | x :: xs => some (xs.foldl max x)

/-- `np.convolve(a, v, mode = valid)`: entry `i` is the dot product of
`a[i .. i+len(v)-1]` with the reversed kernel `v`. -/
def convolveValid (a v : List ℚ) : List ℚ :=
  (List.range (a.length - v.length + 1)).map (fun i =>
    ((List.range v.length).map (fun j =>
      a.getD (i + j) 0 * v.getD (v.length - 1 - j) 0)).sum)

/-- `get_max_average_power` (bot_power.py lines 155-161): `None` when the
stream is shorter than the window, otherwise the maximum of the valid
convolution of the stream with the uniform kernel `np.ones(w)/w`. -/
def get_max_average_power (power_stream : List ℚ) (interval_seconds : ℕ) :
    Option ℚ :=
  if power_stream.length < interval_seconds then none
  else
    listMax (convolveValid power_stream
      (List.replicate interval_seconds ((interval_seconds : ℚ))⁻¹))

/-- Round a rational to the nearest integer, ties to even: the rounding used
by Python's builtin `round`. -/
def roundHalfEven (q : ℚ) : ℤ :=
  if q - (⌊q⌋ : ℚ) < 1/2 then ⌊q⌋
  else if 1/2 < q - (⌊q⌋ : ℚ) then ⌊q⌋ + 1
  else if ⌊q⌋ % 2 = 0 then ⌊q⌋ else ⌊q⌋ + 1

/-- Python's `round(x, 1)`: round to one decimal place, ties to even. -/
def round1 (q : ℚ) : ℚ := ((roundHalfEven (10 * q) : ℚ)) / 10

/-- Spec-side definition (§4.2): the list of all contiguous windows of exactly
`w` consecutive samples of `s`. -/
def specWindows (s : List ℚ) (w : ℕ) : List (List ℚ) :=
  (List.range (s.length - w + 1)).map (fun i => (s.drop i).take w)

/-- Spec-side definition (§4.2): the maximum over all windows of the
arithmetic mean `sum(window)/w`. -/
def specMaxWindowMean (s : List ℚ) (w : ℕ) : Option ℚ :=
  listMax ((specWindows s w).map (fun win => win.sum / (w : ℚ)))

/-- Truthiness of the Python value `activity.get("time")`: falsy when the key
is missing (`None`) or the list is empty, truthy otherwise. -/
def truthyTime (t : Option (List ℕ)) : Bool :=
  match t with
  | some (_ :: _) => true
  | _ => false

/-- One entry of the list built by `load_power_streams`. -/
structure ActivityData where
  power : List ℚ
  time : List ℕ
  date : Option ℕ
  name : String
  deriving DecidableEq

/-- `load_power_streams` (bot_power.py lines 135-153).  Every file of the
(modelled) store ends in `.json`, so the name filter is the identity.  There
is no exception handler in the source: a file whose bytes are not JSON makes
`json.load` raise `JSONDecodeError`, and a record whose `power` key is absent
or null makes `clean_power_data(None)` raise `TypeError` (iteration over
`None`); both abort the whole read. -/
def load_power_streams : List StoreFile → Except PyErr (List ActivityData)
  | [] => .ok []
  | f :: rest =>
    match f.content with
    | none => .error .jsonDecodeError
    | some act =>
      match act.power with
      | .absent => .error .typeError
      | .null => .error .typeError
      | .val praw =>
        let power := clean_power_data praw
        match load_power_streams rest with
        | .error e => .error e
        | .ok tail =>
          if !power.isEmpty && truthyTime act.time && decide (10 ≤ power.length)
          then .ok ({ power := power, time := act.time.getD [],
                      date := act.start_date,
                      name := act.name.getD (toString f.fid ++ ".json") } :: tail)
          else .ok tail

/-- One entry of the list built by `analyze_power`: `max_power` is the value
stored by `round(max_avg_power, 1)`, i.e. already rounded. -/
structure ResultEntry where
  name : String
  date : Option ℕ
  max_power : ℚ
  deriving DecidableEq

/-- The body of the loop in `analyze_power` (bot_power.py lines 167-174): a
result entry is appended only when `max_avg_power` is truthy, i.e. not `None`
and not `0.0`; the stored value is rounded to one decimal. -/
def toResult (interval_seconds : ℕ) (act : ActivityData) : Option ResultEntry :=
  match get_max_average_power act.power interval_seconds with
  | none => none
  | some v => if v ≠ 0 then some ⟨act.name, act.date, round1 v⟩ else none

/-- Insert into a list that is sorted descending by `max_power`, after all
existing entries with a greater-or-equal key (stability). -/
def insertResult (x : ResultEntry) : List ResultEntry → List ResultEntry
  | [] => [x]
  | y :: ys =>
    if x.max_power < y.max_power then y :: insertResult x ys
    else x :: y :: ys

/-- `results.sort(key = max_power, reverse = True)` (bot_power.py line 176):
Python's sort is stable, so the result is the unique permutation that is
non-increasing in `max_power` with ties kept in input order; embedded as a
stable insertion sort with exactly that behaviour. -/
def sortResults (l : List ResultEntry) : List ResultEntry :=
  l.foldr insertResult []

/-- The pure part of `analyze_power` after loading: filter, sort, truncate. -/
def analyzeActs (acts : List ActivityData) (interval_seconds top_n : ℕ) :
    List ResultEntry :=
  (sortResults (acts.filterMap (toResult interval_seconds))).take top_n

/-- `analyze_power` (bot_power.py lines 163-177); an exception escaping
`load_power_streams` escapes `analyze_power` as well. -/
def analyze_power (folder : List StoreFile) (interval_seconds : ℕ)
    (top_n : ℕ) : Except PyErr (List ResultEntry) :=
  match load_power_streams folder with
  | .error e => .error e
  | .ok acts => .ok (analyzeActs acts interval_seconds top_n)

/-- `get_activity_max_power` (bot_power.py lines 225-235):
`activity.get("power", [])` yields `[]` for an absent key but `None` for a
stored null (on which `clean_power_data` raises `TypeError`). -/
def get_activity_max_power (activity : RawRecord) (interval_seconds : ℕ) :
    Except PyErr (Option ℚ) :=
  match activity.power with
  | .null => .error .typeError
  | .absent =>
    match get_max_average_power (clean_power_data []) interval_seconds with
    | none => .ok none
    | some v => .ok (some (round1 v))
  | .val praw =>
    match get_max_average_power (clean_power_data praw) interval_seconds with
    | none => .ok none
    | some v => .ok (some (round1 v))

/-- A store file on which `load_power_streams` cannot raise: valid JSON whose
`power` key holds a list. -/
def loadSafe (f : StoreFile) : Bool :=
  match f.content with
  | some r => match r.power with | .val _ => true | _ => false
  | none => false

/-- The contribution of one load-safe store file to `load_power_streams`:
`some` entry when the loader's filter (nonempty cleaned power, truthy time,
length at least 10) keeps it, `none` otherwise. -/
def loadOne (f : StoreFile) : Option ActivityData :=
  match f.content with
  | none => none
  | some act =>
    match act.power with
    | .val praw =>
      let power := clean_power_data praw
      if !power.isEmpty && truthyTime act.time && decide (10 ≤ power.length)
      then some { power := power, time := act.time.getD [],
                  date := act.start_date,
                  name := act.name.getD (toString f.fid ++ ".json") }
      else none
    | _ => none

/-- `datetime.min` under the order-isomorphic ℕ encoding of timestamps. -/
def datetimeMin : ℕ := 0

/-- The id set built in bot_power.py lines 66-73: the id of every store file
whose bytes parse as JSON (the id is recorded before `start_date` is parsed,
so a record with a bad `start_date` still contributes its id). -/
def downloadedIds (store : List StoreFile) : List ℕ :=
  store.filterMap (fun f => f.content.map (fun _ => f.fid))

/-- One step of the watermark scan (bot_power.py lines 76-80): keep the
parsed `start_date` when it is strictly later than the running latest;
unreadable files and records with a missing or unparseable `start_date` are
skipped by the `except` clause (lines 81-82). -/
def wmStep (latest : ℕ) (f : StoreFile) : ℕ :=
  match f.content with
  | none => latest
  | some r =>
    match r.start_date with
    | none => latest
    | some d => if latest < d then d else latest

/-- The watermark scan of bot_power.py lines 63-84: fold `wmStep` over the
store directory, starting from `datetime.min`. -/
def scanWatermark (store : List StoreFile) : ℕ :=
  store.foldl wmStep datetimeMin

/-- The parseable `start_date` values of a store, in listing order. -/
def parsedDates (store : List StoreFile) : List ℕ :=
  store.filterMap (fun f => f.content.bind (fun r => r.start_date))

/-- A store file that contributes a date to the watermark scan. -/
def hasParsedDate (f : StoreFile) : Bool :=
  match f.content with
  | some r => r.start_date.isSome
  | none => false

/-- A remote activity summary together with what the stream endpoints would
answer for it: `hasStreams` is whether both `watts` and `time` appear among
the available streams, `powerData`/`timeData` the fetched stream contents. -/
structure RemoteActivity where
  id : ℕ
  name : String
  startDate : ℕ
  hasStreams : Bool
  powerData : List (Option ℚ)
  timeData : List ℕ
  deriving DecidableEq

/-- The save condition of bot_power.py lines 100-111: both streams listed and
both fetched data lists nonempty. -/
def completeActivity (a : RemoteActivity) : Bool :=
  a.hasStreams && !a.powerData.isEmpty && !a.timeData.isEmpty

/-- The store file written for a saved activity (bot_power.py lines 112-121):
named by its id, all fields present, `start_date` parseable. -/
def recordOf (a : RemoteActivity) : StoreFile :=
  ⟨a.id, some { name := some a.name, start_date := some a.startDate,
                power := .val a.powerData, time := some a.timeData }⟩

/-- The download loop of bot_power.py lines 91-124 over a remote listing.
`rl = some k` models `RateLimitExceeded` being raised by the remote calls
while handling listing element `k` (0-based): that element and everything
after it are not saved.  `rl = none` is an uninterrupted run.  The skip
branches mirror the source: an id already downloaded is skipped first, then
an activity without both streams or with empty data is skipped. -/
def processListing (ids : List ℕ) :
    List RemoteActivity → Option ℕ → List StoreFile
  | [], _ => []
  | a :: rest, rl =>
    match rl with
    | some 0 => []
    | some (k + 1) =>
      (if a.id ∈ ids then []
       else if completeActivity a then [recordOf a] else []) ++
      processListing ids rest (some k)
    | none =>
      (if a.id ∈ ids then []
       else if completeActivity a then [recordOf a] else []) ++
      processListing ids rest none

/-- The remote listing for one run: `client.get_activities(after = w, ...)`
returns the remote activities strictly after the watermark (the
`max_activities` bound is modelled as not binding). -/
def syncListing (remote : List RemoteActivity) (w : ℕ) : List RemoteActivity :=
  remote.filter (fun a => decide (w < a.startDate))

/-- `download_and_save_power_streams` (bot_power.py lines 61-130): scan ids
and watermark, list newer remote activities, save the new complete ones.  The
second component is what the function communicates to its caller: it returns
`None` on every path — normal completion, the `RateLimitExceeded` handler
(line 126) and the generic handler (line 129) all fall back to returning
`None` — embedded as the constant `Except.ok ()`. -/
def download_and_save_power_streams (store : List StoreFile) (remote : List RemoteActivity)
    (rateLimitAt : Option ℕ) : List StoreFile × Except Unit Unit :=
  (store ++ processListing (downloadedIds store)
      (syncListing remote (scanWatermark store)) rateLimitAt,
   Except.ok ())

/-- An uninterrupted sync pass. -/
def syncOnce (store : List StoreFile) (remote : List RemoteActivity) :
    List StoreFile :=
  (download_and_save_power_streams store remote none).1

/-- The records an uninterrupted sync pass persists. -/
def newRecords (store : List StoreFile) (remote : List RemoteActivity) :
    List StoreFile :=
  processListing (downloadedIds store)
    (syncListing remote (scanWatermark store)) none

/-! ## Window analyzer: convolution equals window means -/

lemma sum_range_getD (s : List ℚ) (i : ℕ) :
    ∀ w : ℕ, ((List.range w).map (fun j => s.getD (i + j) 0)).sum =
      ((s.drop i).take w).sum := by
  intro w
  induction w with
  | zero => simp
  | succ w ih =>
    rw [List.range_succ, List.map_append, List.sum_append, List.take_succ,
      List.sum_append, ih]
    have hd : (s.drop i)[w]? = s[i + w]? := List.getElem?_drop s i w
    cases hx : s[i + w]? with
    | none => simp [hd, hx]
    | some v => simp [hd, hx]

lemma conv_eq_means (s : List ℚ) (w : ℕ) :
    convolveValid s (List.replicate w ((w : ℚ))⁻¹) =
      (specWindows s w).map (fun win => win.sum / (w : ℚ)) := by
  unfold convolveValid specWindows
  rw [List.length_replicate, List.map_map]
  apply List.map_congr_left
  intro i _
  have hker : ∀ j ∈ List.range w,
      (fun j => s.getD (i + j) 0 *
        (List.replicate w ((w : ℚ))⁻¹).getD (w - 1 - j) 0) j =
      (fun j => s.getD (i + j) 0 * ((w : ℚ))⁻¹) j := by
    intro j hj
    have hjw : j < w := List.mem_range.mp hj
    have hlt : w - 1 - j < w := by omega
    simp only [List.getD_eq_getElem?_getD, List.getElem?_replicate, if_pos hlt,
      Option.getD_some]
  rw [List.map_congr_left hker, List.sum_map_mul_right, sum_range_getD]
  simp [div_eq_mul_inv]

/-- For `w ≤ len`, the source computation agrees with the spec-side maximum
of window means. -/
lemma maxAverage_eq_specMean (s : List ℚ) (w : ℕ)
    (h2 : w ≤ s.length) : get_max_average_power s w = specMaxWindowMean s w := by
  unfold get_max_average_power specMaxWindowMean
  rw [if_neg (by omega : ¬ s.length < w), conv_eq_means s w]

lemma specWindows_length (s : List ℚ) (w : ℕ) :
    (specWindows s w).length = s.length - w + 1 := by
  simp [specWindows]

/-- Concrete evaluation matching the spec example
`max_average([1,0,3], 2) = 1.5`. -/
lemma maxAverage_example : get_max_average_power [1, 0, 3] 2 = some (3/2) := by
  rw [maxAverage_eq_specMean _ _ (by decide)]
  have hr : List.range 2 = [0, 1] := by decide
  simp [specMaxWindowMean, specWindows, hr, listMax]
  norm_num

/-- Claim C1: for every sample sequence `s` and positive `w ≤ len s`,
`get_max_average_power s w` equals the maximum over all `len s - w + 1`
contiguous windows of exactly `w` consecutive samples of the arithmetic mean
`sum(window)/w`. -/
theorem max_average_power_is_max_window_mean :
    ∀ (s : List ℚ) (w : ℕ), 1 ≤ w → w ≤ s.length →
      get_max_average_power s w = specMaxWindowMean s w ∧
      (specWindows s w).length = s.length - w + 1 := by
  intro s w _ h2
  exact ⟨maxAverage_eq_specMean s w h2, specWindows_length s w⟩

/-- Witness for C1 at `s = [1,0,3]`, `w = 2`, with the value evaluated:
the maximum window mean is `3/2`, as in the spec example. -/
theorem max_average_power_is_max_window_mean_witness :
    (1 ≤ 2 ∧ 2 ≤ ([1, 0, 3] : List ℚ).length) ∧
    get_max_average_power [1, 0, 3] 2 = specMaxWindowMean [1, 0, 3] 2 ∧
    get_max_average_power [1, 0, 3] 2 = some (3/2) :=
  ⟨⟨by decide, by decide⟩,
   (max_average_power_is_max_window_mean [1, 0, 3] 2 (by decide) (by decide)).1,
   maxAverage_example⟩

/-! ## Sample cleaner -/

/-- Claim C5: `clean_power_data` preserves length and order, replaces every
`None` entry by `0`, leaves every numeric entry unchanged, and maps the empty
input to the empty output; it is a total function. -/
theorem clean_power_data_spec :
    ∀ l : List (Option ℚ),
      (clean_power_data l).length = l.length ∧
      (∀ i : ℕ, (clean_power_data l)[i]? = (l[i]?).map (fun p => p.getD 0)) ∧
      clean_power_data [] = ([] : List ℚ) := by
  intro l
  refine ⟨by simp [clean_power_data], ?_, rfl⟩
  intro i
  simp only [clean_power_data, List.getElem?_map]
  cases hx : l[i]? with
  | none => rfl
  | some p => cases p <;> rfl

/-! ## Short streams and ranking exclusion -/

lemma convolveValid_length (a v : List ℚ) :
    (convolveValid a v).length = a.length - v.length + 1 := by
  simp [convolveValid]

lemma getMaxAveragePower_eq_none_iff (s : List ℚ) (w : ℕ) :
    get_max_average_power s w = none ↔ s.length < w := by
  unfold get_max_average_power
  split
  · simpa
  · rename_i h
    constructor
    · intro hmax
      cases hc : convolveValid s (List.replicate w ((w : ℚ))⁻¹) with
      | nil =>
        have := convolveValid_length s (List.replicate w ((w : ℚ))⁻¹)
        rw [hc] at this
        simp at this
      | cons x xs => rw [hc] at hmax; simp [listMax] at hmax
    · intro hlen; exact absurd hlen h

lemma toResult_eq_none_iff (w : ℕ) (a : ActivityData) :
    toResult w a = none ↔
      a.power.length < w ∨ get_max_average_power a.power w = some 0 := by
  cases h : get_max_average_power a.power w with
  | none =>
    have hl := (getMaxAveragePower_eq_none_iff a.power w).mp h
    simp [toResult, h, hl]
  | some v =>
    have hlen : ¬ a.power.length < w := by
      intro hl
      rw [(getMaxAveragePower_eq_none_iff a.power w).mpr hl] at h
      exact Option.noConfusion h
    by_cases hv : v = 0
    · subst hv; simp [toResult, h, hlen]
    · simp [toResult, h, hv, hlen]

lemma filterMap_filter_eq_of_none {α β : Type} (g : α → Option β)
    (p : α → Bool) (h : ∀ a, p a = false → g a = none) :
    ∀ l : List α, (l.filter p).filterMap g = l.filterMap g := by
  intro l
  induction l with
  | nil => rfl
  | cons a rest ih =>
    cases hp : p a with
    | true => simp [List.filter_cons, hp, List.filterMap_cons, ih]
    | false => simp [List.filter_cons, hp, List.filterMap_cons, h a hp, ih]

/-- Claim C4: for positive `w`, a stream shorter than `w` yields an absent
result (`none`, not zero and not an exception), and dropping all records whose
cleaned sequence is shorter than `w` does not change the `top_n` output for
any `n` — such records never appear in it. -/
theorem short_stream_absent_and_excluded :
    ∀ w : ℕ, 1 ≤ w →
      (∀ s : List ℚ, s.length < w → get_max_average_power s w = none) ∧
      (∀ (acts : List ActivityData) (n : ℕ),
        analyzeActs (acts.filter (fun a => decide (w ≤ a.power.length))) w n =
          analyzeActs acts w n) := by
  intro w _
  constructor
  · intro s hs; exact (getMaxAveragePower_eq_none_iff s w).mpr hs
  · intro acts n
    unfold analyzeActs
    rw [filterMap_filter_eq_of_none (toResult w)
      (fun a => decide (w ≤ a.power.length)) ?_ acts]
    intro a ha
    have : a.power.length < w := by
      have := of_decide_eq_false ha
      omega
    exact (toResult_eq_none_iff w a).mpr (Or.inl this)

/-- Witness for C4 at `w = 3`, a two-sample stream and a concrete activity
list. -/
theorem short_stream_absent_and_excluded_witness :
    1 ≤ 3 ∧ get_max_average_power [5, 7] 3 = none ∧
      analyzeActs (List.filter (fun a => decide (3 ≤ a.power.length))
          [(⟨[5, 7], [1], none, "x"⟩ : ActivityData)]) 3 1 =
        analyzeActs [(⟨[5, 7], [1], none, "x"⟩ : ActivityData)] 3 1 :=
  ⟨by decide,
   (short_stream_absent_and_excluded 3 (by decide)).1 [5, 7] (by decide),
   (short_stream_absent_and_excluded 3 (by decide)).2
     [(⟨[5, 7], [1], none, "x"⟩ : ActivityData)] 1⟩

/-! ## Sortedness of the ranking output -/

lemma mem_insertResult (x z : ResultEntry) :
    ∀ l : List ResultEntry, z ∈ insertResult x l → z = x ∨ z ∈ l := by
  intro l
  induction l with
  | nil => intro h; simpa [insertResult] using h
  | cons y ys ih =>
    intro h
    unfold insertResult at h
    by_cases hc : x.max_power < y.max_power
    · rw [if_pos hc] at h
      rcases List.mem_cons.mp h with hz | hz
      · exact Or.inr (List.mem_cons.mpr (Or.inl hz))
      · rcases ih hz with hz2 | hz2
        · exact Or.inl hz2
        · exact Or.inr (List.mem_cons.mpr (Or.inr hz2))
    · rw [if_neg hc] at h
      rcases List.mem_cons.mp h with hz | hz
      · exact Or.inl hz
      · exact Or.inr hz

lemma pairwise_insertResult (x : ResultEntry) :
    ∀ l : List ResultEntry,
      l.Pairwise (fun a b => b.max_power ≤ a.max_power) →
      (insertResult x l).Pairwise (fun a b => b.max_power ≤ a.max_power) := by
  intro l
  induction l with
  | nil => intro _; simp [insertResult]
  | cons y ys ih =>
    intro h
    rcases List.pairwise_cons.mp h with ⟨hy, hys⟩
    unfold insertResult
    by_cases hc : x.max_power < y.max_power
    · rw [if_pos hc]
      refine List.pairwise_cons.mpr ⟨?_, ih hys⟩
      intro z hz
      rcases mem_insertResult x z ys hz with hz2 | hz2
      · rw [hz2]; exact le_of_lt hc
      · exact hy z hz2
    · rw [if_neg hc]
      refine List.pairwise_cons.mpr ⟨?_, h⟩
      intro z hz
      rcases List.mem_cons.mp hz with hz2 | hz2
      · rw [hz2]; exact le_of_not_lt hc
      · exact le_trans (hy z hz2) (le_of_not_lt hc)

lemma pairwise_sortResults (l : List ResultEntry) :
    (sortResults l).Pairwise (fun a b => b.max_power ≤ a.max_power) := by
  unfold sortResults
  induction l with
  | nil => simp
  | cons x xs ih => exact pairwise_insertResult x (xs.foldr insertResult []) ih

/-- Amended C2: the `top_n` output of `analyze_power` is sorted
non-increasingly by the stored `max_power` key — which is the value already
rounded to one decimal place, not the unrounded maximum average. -/
theorem analyze_power_sorted_by_rounded_key :
    ∀ (folder : List StoreFile) (w n : ℕ) (res : List ResultEntry),
      analyze_power folder w n = .ok res →
      res.Pairwise (fun a b => b.max_power ≤ a.max_power) := by
  intro folder w n res h
  unfold analyze_power at h
  cases hl : load_power_streams folder with
  | error e => rw [hl] at h; exact Except.noConfusion h
  | ok acts =>
    rw [hl] at h
    have hres : res = analyzeActs acts w n := (Except.ok.inj h).symm
    rw [hres]
    unfold analyzeActs
    exact List.Pairwise.sublist (List.take_sublist _ _)
      (pairwise_sortResults (acts.filterMap (toResult w)))

/-! ## Loader characterization on stores it cannot crash on -/

lemma loadPowerStreams_ok_of_safe :
    ∀ folder : List StoreFile, (∀ f ∈ folder, loadSafe f = true) →
      load_power_streams folder = .ok (folder.filterMap loadOne) := by
  intro folder
  induction folder with
  | nil => intro _; rfl
  | cons f rest ih =>
    intro h
    have hf : loadSafe f = true := h f (List.mem_cons_self f rest)
    have hrest : ∀ g ∈ rest, loadSafe g = true :=
      fun g hg => h g (List.mem_cons.mpr (Or.inr hg))
    cases hc : f.content with
    | none => simp [loadSafe, hc] at hf
    | some act =>
      cases hp : act.power with
      | absent => simp [loadSafe, hc, hp] at hf
      | null => simp [loadSafe, hc, hp] at hf
      | val praw =>
        simp only [load_power_streams, hc, hp, ih hrest, List.filterMap_cons,
          loadOne]
        cases hcond : (!(clean_power_data praw).isEmpty && truthyTime act.time &&
            decide (10 ≤ (clean_power_data praw).length)) with
        | true => simp only [hcond, if_true]
        | false => simp only [hcond, Bool.false_eq_true, if_false]

/-- Amended C3: on a store on which the loader cannot raise, the `top_n`
output is exactly: the loaded records (nonempty cleaned power, truthy time
field, cleaned length at least 10), each contributing a result entry iff its
length is at least `w` AND its maximum window average is nonzero (a `0.0`
maximum is dropped by the truthiness test, contrary to the claim that absent
results are the only exclusions), sorted stable-descending and truncated to
the first `n`; when nothing qualifies the output is the empty list, not an
error. -/
theorem analyze_power_membership_amended :
    ∀ (folder : List StoreFile) (w n : ℕ),
      (∀ f ∈ folder, loadSafe f = true) →
      analyze_power folder w n =
        .ok ((sortResults ((folder.filterMap loadOne).filterMap
          (toResult w))).take n) ∧
      (∀ a : ActivityData, toResult w a = none ↔
        a.power.length < w ∨ get_max_average_power a.power w = some 0) ∧
      ((folder.filterMap loadOne).filterMap (toResult w) = [] →
        analyze_power folder w n = .ok []) := by
  intro folder w n h
  have hload := loadPowerStreams_ok_of_safe folder h
  have h1 : analyze_power folder w n =
      .ok ((sortResults ((folder.filterMap loadOne).filterMap
        (toResult w))).take n) := by
    unfold analyze_power
    rw [hload]
    rfl
  refine ⟨h1, fun a => toResult_eq_none_iff w a, ?_⟩
  intro hnil
  rw [h1, hnil]
  simp [sortResults]

/-! ## Evaluation helpers for constant streams and rounding -/

lemma foldlMax_replicate (q : ℚ) : ∀ k, (List.replicate k q).foldl max q = q := by
  intro k
  induction k with
  | zero => rfl
  | succ k ih => rw [List.replicate_succ, List.foldl_cons, max_self]; exact ih

lemma listMax_replicate_succ (k : ℕ) (q : ℚ) :
    listMax (List.replicate (k + 1) q) = some q := by
  rw [List.replicate_succ, listMax, foldlMax_replicate]

lemma maxAverage_replicate (n w : ℕ) (h1 : 1 ≤ w) (h2 : w ≤ n) (q : ℚ) :
    get_max_average_power (List.replicate n q) w = some q := by
  rw [maxAverage_eq_specMean _ _ (by simpa using h2)]
  unfold specMaxWindowMean specWindows
  rw [List.length_replicate, List.map_map]
  have hw0 : (w : ℚ) ≠ 0 := Nat.cast_ne_zero.mpr (by omega)
  have hwin : ∀ i ∈ List.range (n - w + 1),
      ((fun win => win.sum / (w : ℚ)) ∘
        (fun i => ((List.replicate n q).drop i).take w)) i =
      (fun _ => q) i := by
    intro i hi
    have hi2 : i < n - w + 1 := List.mem_range.mp hi
    have hdt : ((List.replicate n q).drop i).take w = List.replicate w q := by
      rw [List.drop_replicate, List.take_replicate]
      congr 1
      omega
    simp only [Function.comp, hdt, List.sum_replicate, nsmul_eq_mul]
    exact mul_div_cancel_left₀ q hw0
  rw [List.map_congr_left hwin, List.map_const']
  simp only [List.length_range]
  exact listMax_replicate_succ (n - w) q

lemma roundHalfEven_c2a : roundHalfEven (63/5) = 13 := by
  have hf : ⌊(63/5 : ℚ)⌋ = 12 := by
    rw [Int.floor_eq_iff]
    constructor <;> norm_num
  rw [roundHalfEven, hf]
  norm_num

lemma roundHalfEven_c2b : roundHalfEven (67/5) = 13 := by
  have hf : ⌊(67/5 : ℚ)⌋ = 13 := by
    rw [Int.floor_eq_iff]
    constructor <;> norm_num
  rw [roundHalfEven, hf]
  norm_num

lemma round1_c2a : round1 (63/50) = 13/10 := by
  rw [round1, show (10 * (63/50) : ℚ) = 63/5 by norm_num, roundHalfEven_c2a]
  norm_num

lemma round1_c2b : round1 (67/50) = 13/10 := by
  rw [round1, show (10 * (67/50) : ℚ) = 67/5 by norm_num, roundHalfEven_c2b]
  norm_num

/-! ## The rounded-sort-key counterexample store -/

/-- Ten samples of 1.26 watts (unrounded mean 1.26, rounds to 1.3). -/
def rawA : List (Option ℚ) := List.replicate 10 (some (63/50))

/-- Ten samples of 1.34 watts (unrounded mean 1.34, rounds to 1.3). -/
def rawB : List (Option ℚ) := List.replicate 10 (some (67/50))

def fileA : StoreFile :=
  ⟨1, some ⟨some "A", some 1, .val rawA, some (List.range 10)⟩⟩

def fileB : StoreFile :=
  ⟨2, some ⟨some "B", some 2, .val rawB, some (List.range 10)⟩⟩

/-- A store with two records whose unrounded maxima differ but round alike. -/
def cs2 : List StoreFile := [fileA, fileB]

def entryA : ResultEntry := ⟨"A", some 1, 13/10⟩

def entryB : ResultEntry := ⟨"B", some 2, 13/10⟩

lemma maxAverage_rawA : get_max_average_power (clean_power_data rawA) 10 =
    some (63/50) := by
  rw [show clean_power_data rawA = List.replicate 10 ((63 : ℚ)/50) from rfl]
  exact maxAverage_replicate 10 10 (by decide) (by decide) _

lemma maxAverage_rawB : get_max_average_power (clean_power_data rawB) 10 =
    some (67/50) := by
  rw [show clean_power_data rawB = List.replicate 10 ((67 : ℚ)/50) from rfl]
  exact maxAverage_replicate 10 10 (by decide) (by decide) _

lemma load_cs2 : load_power_streams cs2 = .ok
    [⟨clean_power_data rawA, List.range 10, some 1, "A"⟩,
     ⟨clean_power_data rawB, List.range 10, some 2, "B"⟩] := rfl

lemma toResult_cs2a :
    toResult 10 ⟨clean_power_data rawA, List.range 10, some 1, "A"⟩ =
      some entryA := by
  rw [toResult]
  rw [show (⟨clean_power_data rawA, List.range 10, some 1, "A"⟩ :
    ActivityData).power = clean_power_data rawA from rfl]
  rw [maxAverage_rawA]
  show (if (63 : ℚ)/50 ≠ 0
    then some (⟨"A", some 1, round1 (63/50)⟩ : ResultEntry) else none) =
    some entryA
  rw [if_pos (by norm_num : (63 : ℚ)/50 ≠ 0), entryA, round1_c2a]

lemma toResult_cs2b :
    toResult 10 ⟨clean_power_data rawB, List.range 10, some 2, "B"⟩ =
      some entryB := by
  rw [toResult]
  rw [show (⟨clean_power_data rawB, List.range 10, some 2, "B"⟩ :
    ActivityData).power = clean_power_data rawB from rfl]
  rw [maxAverage_rawB]
  show (if (67 : ℚ)/50 ≠ 0
    then some (⟨"B", some 2, round1 (67/50)⟩ : ResultEntry) else none) =
    some entryB
  rw [if_pos (by norm_num : (67 : ℚ)/50 ≠ 0), entryB, round1_c2b]

lemma sort_cs2 : sortResults [entryA, entryB] = [entryA, entryB] := by
  show insertResult entryA [entryB] = [entryA, entryB]
  show (if entryA.max_power < entryB.max_power
    then entryB :: insertResult entryA [] else entryA :: [entryB]) =
    [entryA, entryB]
  rw [if_neg (show ¬ entryA.max_power < entryB.max_power by
    rw [entryA, entryB]; norm_num)]

lemma analyzePower_cs2_eval : analyze_power cs2 10 5 = .ok [entryA, entryB] := by
  simp only [analyze_power, load_cs2, analyzeActs, List.filterMap_cons,
    toResult_cs2a, toResult_cs2b, List.filterMap_nil, sort_cs2]
  rfl

/-! ## Watermark scan -/

lemma le_wmStep (i : ℕ) (f : StoreFile) : i ≤ wmStep i f := by
  cases hc : f.content with
  | none => simp [wmStep, hc]
  | some r =>
    cases hd : r.start_date with
    | none => simp [wmStep, hc, hd]
    | some d =>
      simp only [wmStep, hc, hd]
      split <;> omega

lemma le_foldl_wmStep : ∀ (l : List StoreFile) (i : ℕ), i ≤ l.foldl wmStep i := by
  intro l
  induction l with
  | nil => intro i; exact le_refl i
  | cons f rest ih =>
    intro i
    exact le_trans (le_wmStep i f) (ih (wmStep i f))

lemma scanWatermark_append_le (s t : List StoreFile) :
    scanWatermark s ≤ scanWatermark (s ++ t) := by
  unfold scanWatermark
  rw [List.foldl_append]
  exact le_foldl_wmStep t _

lemma parsedDates_cons_none (f : StoreFile) (l : List StoreFile)
    (h : f.content.bind (fun r => r.start_date) = none) :
    parsedDates (f :: l) = parsedDates l := by
  simp [parsedDates, List.filterMap_cons, h]

lemma parsedDates_cons_some (f : StoreFile) (l : List StoreFile) (d : ℕ)
    (h : f.content.bind (fun r => r.start_date) = some d) :
    parsedDates (f :: l) = d :: parsedDates l := by
  simp [parsedDates, List.filterMap_cons, h]

lemma foldl_wmStep_eq : ∀ (l : List StoreFile) (i : ℕ),
    l.foldl wmStep i = (parsedDates l).foldl max i := by
  intro l
  induction l with
  | nil => intro i; rfl
  | cons f rest ih =>
    intro i
    rw [List.foldl_cons]
    cases hc : f.content with
    | none =>
      have h1 : wmStep i f = i := by simp [wmStep, hc]
      rw [h1, parsedDates_cons_none f rest (by simp [hc]), ih]
    | some r =>
      cases hd : r.start_date with
      | none =>
        have h1 : wmStep i f = i := by simp [wmStep, hc, hd]
        rw [h1, parsedDates_cons_none f rest (by simp [hc, hd]), ih]
      | some d =>
        have h1 : wmStep i f = max i d := by
          simp only [wmStep, hc, hd]
          rcases Nat.lt_or_ge i d with h | h
          · rw [if_pos h, max_eq_right (Nat.le_of_lt h)]
          · rw [if_neg (Nat.not_lt.mpr h), max_eq_left h]
        rw [h1, parsedDates_cons_some f rest d (by simp [hc, hd]),
          List.foldl_cons, ih]

lemma foldl_max_facts : ∀ (l : List ℕ) (i : ℕ),
    i ≤ l.foldl max i ∧ (∀ d ∈ l, d ≤ l.foldl max i) ∧
    (l.foldl max i = i ∨ l.foldl max i ∈ l) := by
  intro l
  induction l with
  | nil => intro i; exact ⟨le_refl i, by simp, Or.inl rfl⟩
  | cons x xs ih =>
    intro i
    obtain ⟨h1, h2, h3⟩ := ih (max i x)
    rw [List.foldl_cons]
    refine ⟨le_trans (le_max_left i x) h1, ?_, ?_⟩
    · intro d hd
      rcases List.mem_cons.mp hd with hdx | hd2
      · rw [hdx]; exact le_trans (le_max_right i x) h1
      · exact h2 d hd2
    · rcases h3 with h | h
      · rcases Nat.le_total i x with hle | hle
        · right
          rw [h, max_eq_right hle]
          exact List.mem_cons_self x xs
        · left
          rw [h, max_eq_left hle]
      · right
        exact List.mem_cons.mpr (Or.inr h)

lemma parsedDates_filter_hasParsedDate : ∀ store : List StoreFile,
    parsedDates (store.filter hasParsedDate) = parsedDates store := by
  intro store
  induction store with
  | nil => rfl
  | cons f rest ih =>
    rw [List.filter_cons]
    cases hc : f.content with
    | none =>
      have hp : hasParsedDate f = false := by simp [hasParsedDate, hc]
      rw [hp]
      simp only [Bool.false_eq_true, if_false]
      rw [parsedDates_cons_none f rest (by simp [hc]), ih]
    | some r =>
      cases hd : r.start_date with
      | none =>
        have hp : hasParsedDate f = false := by simp [hasParsedDate, hc, hd]
        rw [hp]
        simp only [Bool.false_eq_true, if_false]
        rw [parsedDates_cons_none f rest (by simp [hc, hd]), ih]
      | some d =>
        have hp : hasParsedDate f = true := by simp [hasParsedDate, hc, hd]
        rw [hp]
        simp only [if_true]
        rw [parsedDates_cons_some f _ d (by simp [hc, hd]),
          parsedDates_cons_some f rest d (by simp [hc, hd]), ih]

/-- Claim C6: the watermark computed before a sync is an upper bound of all
parseable `start_date`s and is attained by one of them whenever any exists;
it is `datetime.min` for the empty store; and skipping unreadable or
field-missing records does not change it. -/
theorem watermark_spec :
    ∀ store : List StoreFile,
      (store = [] → scanWatermark store = datetimeMin) ∧
      (∀ d ∈ parsedDates store, d ≤ scanWatermark store) ∧
      (parsedDates store ≠ [] → scanWatermark store ∈ parsedDates store) ∧
      scanWatermark store = scanWatermark (store.filter hasParsedDate) := by
  intro store
  have heq : scanWatermark store = (parsedDates store).foldl max datetimeMin :=
    foldl_wmStep_eq store datetimeMin
  obtain ⟨hle, hmem, hin⟩ := foldl_max_facts (parsedDates store) datetimeMin
  refine ⟨?_, ?_, ?_, ?_⟩
  · intro h; rw [h]; rfl
  · intro d hd; rw [heq]; exact hmem d hd
  · intro hne
    rw [heq]
    rcases hin with h | h
    · obtain ⟨d0, hd0⟩ : ∃ x, x ∈ parsedDates store := by
        cases hl : parsedDates store with
        | nil => exact absurd hl hne
        | cons a rest2 => exact ⟨a, List.mem_cons_self a rest2⟩
      have hd0le := hmem d0 hd0
      rw [h] at hd0le
      have hz : d0 = datetimeMin := Nat.le_zero.mp hd0le
      rw [h, ← hz]
      exact hd0
    · exact h
  · have heq2 : scanWatermark (store.filter hasParsedDate) =
        (parsedDates (store.filter hasParsedDate)).foldl max datetimeMin :=
      foldl_wmStep_eq _ datetimeMin
    rw [heq, heq2, parsedDates_filter_hasParsedDate]

/-- A store matching the watermark example of spec §8: dates 2024-01-01,
2024-03-15, 2024-02-01 (encoded as naturals) plus one unreadable file. -/
def wmStore : List StoreFile :=
  [⟨11, some ⟨some "a", some 20240101, .val [], none⟩⟩,
   ⟨12, none⟩,
   ⟨13, some ⟨some "b", some 20240315, .val [], none⟩⟩,
   ⟨14, some ⟨some "c", some 20240201, .val [], none⟩⟩]

/-- Witness for C6: on `wmStore`, the watermark is attained, bounds
2024-03-15, and evaluates to 2024-03-15. -/
theorem watermark_spec_witness :
    parsedDates wmStore ≠ [] ∧ scanWatermark wmStore ∈ parsedDates wmStore ∧
    20240315 ≤ scanWatermark wmStore ∧ scanWatermark wmStore = 20240315 :=
  ⟨by decide, (watermark_spec wmStore).2.2.1 (by decide),
   (watermark_spec wmStore).2.1 20240315 (by decide), by decide⟩

/-! ## Sync: deduplication, idempotence, rate limiting -/

lemma processListing_mem : ∀ (ids : List ℕ) (l : List RemoteActivity)
    (f : StoreFile), f ∈ processListing ids l none →
    ∃ a, a ∈ l ∧ f = recordOf a ∧ a.id ∉ ids ∧ completeActivity a = true := by
  intro ids l
  induction l with
  | nil => intro f h; simp [processListing] at h
  | cons a rest ih =>
    intro f h
    simp only [processListing] at h
    rcases List.mem_append.mp h with h1 | h2
    · by_cases hid : a.id ∈ ids
      · rw [if_pos hid] at h1; simp at h1
      · rw [if_neg hid] at h1
        by_cases hc2 : completeActivity a = true
        · rw [if_pos hc2] at h1
          have hfa : f = recordOf a := by simpa using h1
          exact ⟨a, List.mem_cons_self a rest, hfa, hid, hc2⟩
        · rw [if_neg hc2] at h1; simp at h1
    · obtain ⟨b, hb, hf, hbid, hbc⟩ := ih f h2
      exact ⟨b, List.mem_cons.mpr (Or.inr hb), hf, hbid, hbc⟩

lemma mem_processListing_of : ∀ (ids : List ℕ) (l : List RemoteActivity)
    (a : RemoteActivity), a ∈ l → a.id ∉ ids → completeActivity a = true →
    recordOf a ∈ processListing ids l none := by
  intro ids l
  induction l with
  | nil => intro a ha; simp at ha
  | cons b rest ih =>
    intro a ha hid hc
    simp only [processListing]
    rcases List.mem_cons.mp ha with hab | ha2
    · rw [hab] at hid hc ⊢
      rw [if_neg hid, if_pos hc]
      exact List.mem_append.mpr (Or.inl (List.mem_cons_self _ _))
    · exact List.mem_append.mpr (Or.inr (ih a ha2 hid hc))

lemma processListing_nil_of : ∀ (ids : List ℕ) (l : List RemoteActivity),
    (∀ a ∈ l, a.id ∈ ids ∨ completeActivity a = false) →
    processListing ids l none = [] := by
  intro ids l
  induction l with
  | nil => intro _; rfl
  | cons a rest ih =>
    intro h
    simp only [processListing]
    have htail := ih (fun b hb => h b (List.mem_cons.mpr (Or.inr hb)))
    rcases h a (List.mem_cons_self a rest) with hid | hc
    · rw [if_pos hid, htail]; rfl
    · by_cases hid : a.id ∈ ids
      · rw [if_pos hid, htail]; rfl
      · rw [if_neg hid, if_neg (by rw [hc]; exact Bool.false_ne_true), htail]
        rfl

lemma processListing_some_take : ∀ (ids : List ℕ) (l : List RemoteActivity)
    (k : ℕ), processListing ids l (some k) =
      processListing ids (l.take k) none := by
  intro ids l
  induction l with
  | nil => intro k; simp [processListing]
  | cons a rest ih =>
    intro k
    cases k with
    | zero => rfl
    | succ k =>
      simp only [processListing, List.take_succ_cons, ih k]

lemma downloadedIds_append (s t : List StoreFile) :
    downloadedIds (s ++ t) = downloadedIds s ++ downloadedIds t :=
  List.filterMap_append s t _

lemma mem_downloadedIds_of_recordOf (a : RemoteActivity)
    (ext : List StoreFile) (h : recordOf a ∈ ext) :
    a.id ∈ downloadedIds ext :=
  List.mem_filterMap.mpr ⟨recordOf a, h, rfl⟩

/-- Claim C7: a sync pass never persists a record whose identifier is already
among the ids of parseable store files, and an immediately repeated sync pass
against an unchanged remote adds nothing: the store is unchanged. -/
theorem sync_dedup_and_idempotent :
    ∀ (store : List StoreFile) (remote : List RemoteActivity),
      (∀ f ∈ newRecords store remote, f.fid ∉ downloadedIds store) ∧
      syncOnce (syncOnce store remote) remote = syncOnce store remote := by
  intro store remote
  constructor
  · intro f hf
    obtain ⟨a, _, hfa, hid, _⟩ := processListing_mem _ _ f hf
    rw [hfa]
    exact hid
  · have hnil : newRecords (syncOnce store remote) remote = [] := by
      apply processListing_nil_of
      intro a ha
      have hmem := List.mem_filter.mp ha
      have hw2 : scanWatermark (store ++ newRecords store remote) <
          a.startDate := of_decide_eq_true hmem.2
      cases hb : completeActivity a with
      | false => exact Or.inr rfl
      | true =>
        left
        show a.id ∈ downloadedIds (store ++ newRecords store remote)
        rw [downloadedIds_append]
        by_cases hid : a.id ∈ downloadedIds store
        · exact List.mem_append.mpr (Or.inl hid)
        · have hw1 : scanWatermark store < a.startDate :=
            lt_of_le_of_lt (scanWatermark_append_le store _) hw2
          have ha1 : a ∈ syncListing remote (scanWatermark store) :=
            List.mem_filter.mpr ⟨hmem.1, decide_eq_true hw1⟩
          have hrec : recordOf a ∈ newRecords store remote :=
            mem_processListing_of _ _ a ha1 hid hb
          exact List.mem_append.mpr
            (Or.inr (mem_downloadedIds_of_recordOf a _ hrec))
    have hdef : syncOnce (syncOnce store remote) remote =
        syncOnce store remote ++ newRecords (syncOnce store remote) remote :=
      rfl
    rw [hdef, hnil, List.append_nil]

/-- A complete remote activity used to instantiate the sync theorems. -/
def remoteW : RemoteActivity := ⟨100, "ride", 50, true, [some 1, some 2], [0, 1]⟩

/-- Witness for C7 on the empty store and a one-activity remote. -/
theorem sync_dedup_and_idempotent_witness :
    (recordOf remoteW).fid ∉ downloadedIds ([] : List StoreFile) ∧
    syncOnce (syncOnce [] [remoteW]) [remoteW] = syncOnce [] [remoteW] :=
  ⟨(sync_dedup_and_idempotent [] [remoteW]).1 (recordOf remoteW)
     (show recordOf remoteW ∈ newRecords [] [remoteW] by
       rw [show newRecords [] [remoteW] = [recordOf remoteW] from rfl]
       exact List.mem_cons_self _ _),
   (sync_dedup_and_idempotent [] [remoteW]).2⟩

/-- Amended C9: a rate-limit signal while handling listing element `k` makes
the sync stop early, keeping the store records persisted before the signal
(exactly those produced from the first `k` listed activities) and raising no
exception — but the value returned to the caller is `None`, the same as on
normal completion, so the condition is only printed, not reported upward. -/
theorem sync_rate_limit_partial_amended :
    ∀ (store : List StoreFile) (remote : List RemoteActivity) (k : ℕ),
      (download_and_save_power_streams store remote (some k)).1 =
        store ++ processListing (downloadedIds store)
          ((syncListing remote (scanWatermark store)).take k) none ∧
      (download_and_save_power_streams store remote (some k)).2 = Except.ok () := by
  intro store remote k
  constructor
  · show store ++ processListing (downloadedIds store)
        (syncListing remote (scanWatermark store)) (some k) = _
    rw [processListing_some_take]
  · rfl

def rlActA : RemoteActivity := ⟨201, "r1", 60, true, [some 1], [0]⟩

def rlActB : RemoteActivity := ⟨202, "r2", 61, true, [some 2], [0]⟩

/-- A remote listing of two complete activities. -/
def remoteRL : List RemoteActivity := [rlActA, rlActB]

/-- Counterexample to C9's distinguishable-outcome part: a rate limit hitting
after the first listing element genuinely changes the run (the resulting
stores differ), yet the value the function returns to its caller is identical
to an uninterrupted run's — the handler only prints and returns `None`, so no
`RateLimited` outcome reaches the caller. -/
theorem sync_rate_limit_counterexample :
    (download_and_save_power_streams [] remoteRL (some 1)).1 ≠ (download_and_save_power_streams [] remoteRL none).1 ∧
    (download_and_save_power_streams [] remoteRL (some 1)).2 = (download_and_save_power_streams [] remoteRL none).2 := by
  constructor
  · intro h
    have hlen := congrArg List.length h
    rw [show (download_and_save_power_streams [] remoteRL (some 1)).1 = [recordOf rlActA] from rfl,
      show (download_and_save_power_streams [] remoteRL none).1 =
        [recordOf rlActA, recordOf rlActB] from rfl] at hlen
    simp at hlen
  · rfl

/-! ## Remaining claim theorems -/

/-- Counterexample to C2: records A and B have unrounded maxima 63/50 < 67/50
which both round to 13/10; the code sorts on the stored rounded key, so the
stable sort keeps input order and returns A (the smaller unrounded maximum)
first, while sorting by unrounded values would have to return B first. -/
theorem analyze_power_rounded_tie_counterexample :
    analyze_power cs2 10 5 = .ok [entryA, entryB] ∧
    get_max_average_power (clean_power_data rawA) 10 = some (63/50) ∧
    get_max_average_power (clean_power_data rawB) 10 = some (67/50) ∧
    ((63 : ℚ)/50) < 67/50 ∧ entryA.name = "A" ∧ entryB.name = "B" :=
  ⟨analyzePower_cs2_eval, maxAverage_rawA, maxAverage_rawB, by norm_num,
   rfl, rfl⟩

/-- Witness for the amended C2 at the concrete store `cs2`. -/
theorem analyze_power_sorted_by_rounded_key_witness :
    [entryA, entryB].Pairwise (fun a b => b.max_power ≤ a.max_power) :=
  analyze_power_sorted_by_rounded_key cs2 10 5 [entryA, entryB]
    analyzePower_cs2_eval

/-- Ten zero samples: cleaned length 10, maximum 3-second average 0. -/
def rawZ : List (Option ℚ) := List.replicate 10 (some 0)

def fileZ : StoreFile :=
  ⟨3, some ⟨some "Z", some 3, .val rawZ, some (List.range 10)⟩⟩

/-- Five 100-watt samples: cleaned length 5, at least one 3-second window. -/
def rawShort : List (Option ℚ) := List.replicate 5 (some 100)

def fileShort : StoreFile :=
  ⟨4, some ⟨some "S", some 4, .val rawShort, some (List.range 5)⟩⟩

/-- A store whose two records both have length at least 3 yet never rank. -/
def cs3 : List StoreFile := [fileZ, fileShort]

lemma maxAverage_rawZ : get_max_average_power (clean_power_data rawZ) 3 =
    some 0 := by
  rw [show clean_power_data rawZ = List.replicate 10 (0 : ℚ) from rfl]
  exact maxAverage_replicate 10 3 (by decide) (by decide) 0

lemma load_cs3 : load_power_streams cs3 =
    .ok [⟨clean_power_data rawZ, List.range 10, some 3, "Z"⟩] := rfl

lemma toResult_cs3z :
    toResult 3 ⟨clean_power_data rawZ, List.range 10, some 3, "Z"⟩ = none := by
  rw [toResult]
  rw [show (⟨clean_power_data rawZ, List.range 10, some 3, "Z"⟩ :
    ActivityData).power = clean_power_data rawZ from rfl]
  rw [maxAverage_rawZ]
  show (if (0 : ℚ) ≠ 0
    then some (⟨"Z", some 3, round1 0⟩ : ResultEntry) else none) = none
  rw [if_neg (by norm_num)]

lemma analyzePower_cs3_eval : analyze_power cs3 3 5 = .ok [] := by
  simp only [analyze_power, load_cs3, analyzeActs, List.filterMap_cons,
    toResult_cs3z, List.filterMap_nil]
  rfl

/-- Counterexample to C3: in store `cs3`, both records have cleaned power
sequences of length at least `w = 3` (lengths 10 and 5), and record Z even
has a present, non-absent result (`some 0`); yet the top-5 output is empty —
the zero maximum is dropped by the truthiness test and the 5-sample record is
dropped by the loader's length-at-least-10 filter, so absent results are not
the only exclusions. -/
theorem analyze_power_qualifying_counterexample :
    analyze_power cs3 3 5 = .ok [] ∧
    get_max_average_power (clean_power_data rawZ) 3 = some 0 ∧
    (clean_power_data rawZ).length = 10 ∧ (clean_power_data rawShort).length = 5 :=
  ⟨analyzePower_cs3_eval, maxAverage_rawZ, by decide, by decide⟩

/-- Witness for the amended C3 at the concrete store `cs3`. -/
theorem analyze_power_membership_amended_witness :
    analyze_power cs3 3 5 =
      .ok ((sortResults ((cs3.filterMap loadOne).filterMap
        (toResult 3))).take 5) :=
  (analyze_power_membership_amended cs3 3 5 (by decide)).1

/-- A fully well-formed ten-sample record. -/
def goodFile : StoreFile :=
  ⟨5, some ⟨some "G", some 5, .val (List.replicate 10 (some 200)),
    some (List.range 10)⟩⟩

/-- A record whose JSON parses but whose `power` key is missing. -/
def badFile : StoreFile := ⟨6, some ⟨some "Bad", some 6, .absent,
  some (List.range 10)⟩⟩

/-- A store with one well-formed record and one record missing `power`. -/
def cs8 : List StoreFile := [goodFile, badFile]

/-- C8 evaluated at its failing input: with one well-formed record and one
record missing the `power` field, `load_power_streams` raises `TypeError`
(from `clean_power_data(None)`) instead of returning the well-formed record,
and the exception propagates through `analyze_power`. -/
theorem load_crashes_on_missing_power :
    load_power_streams cs8 = .error PyErr.typeError ∧
    analyze_power cs8 5 5 = .error PyErr.typeError ∧
    loadSafe goodFile = true ∧ loadSafe badFile = false :=
  ⟨rfl, rfl, rfl, rfl⟩

/-- Claim C10: applied to an activity dictionary that lacks the `power` key,
`get_activity_max_power` with any positive window returns an absent result
rather than raising — the missing stream defaults to the empty list, which is
shorter than any positive window. -/
theorem get_activity_max_power_missing_key :
    ∀ (a : RawRecord) (w : ℕ), a.power = PowerField.absent → 1 ≤ w →
      get_activity_max_power a w = .ok none := by
  intro a w hp hw
  unfold get_activity_max_power
  simp only [hp]
  have hnone : get_max_average_power (clean_power_data []) w = none :=
    (getMaxAveragePower_eq_none_iff _ _).mpr
      (by simp [clean_power_data]; omega)
  rw [hnone]

/-- Witness for C10 at a concrete record without `power` and `w = 5`. -/
theorem get_activity_max_power_missing_key_witness :
    (⟨some "N", some 7, PowerField.absent, some [1]⟩ : RawRecord).power =
      PowerField.absent ∧ 1 ≤ 5 ∧
    get_activity_max_power ⟨some "N", some 7, PowerField.absent, some [1]⟩ 5 =
      .ok none :=
  ⟨rfl, by decide,
   get_activity_max_power_missing_key
     ⟨some "N", some 7, PowerField.absent, some [1]⟩ 5 rfl (by decide)⟩

end BotPower
